import Mathlib

set_option maxRecDepth 20000

/-!
Shallow embedding of `toReel.py` (LuisAhumadaMartens/Reels): the detection
aggregator (`cluster_people`), the crop window mapper, the online
`PersonTracker` state machine, and the two-pass `MovementPlanner`.

Floats of the source are modelled as rationals (ℚ).  The source compares
`math.sqrt(d) < t` (resp. `> t`); since every threshold used is
nonnegative this is equivalent to `d < t^2` (resp. `d > t^2`), and the
embedding uses the squared form to stay computable.
-/

namespace ToReel

/-- Constant `CONFIDENCE_MARGIN = 0.15` from the source. -/
def CONFIDENCE_MARGIN : ℚ := 3/20

/-- Constant `DEFAULT_CENTER = 0.5` from the source. -/
def DEFAULT_CENTER : ℚ := 1/2

/-!  ## Detection aggregator: `cluster_people`

A detection (one element of `people`) is the tuple `(y, x, confidence)`
taken from `keypoints[:3]`; the `person_id` component of the source tuple
is unpacked but never used, so it is dropped here.  A cluster accumulator
mirrors the dict `{"sum_x", "sum_y", "count", "max_conf"}`. -/

structure ClusterAcc where
  sum_x : ℚ
  sum_y : ℚ
  count : ℕ
  max_conf : ℚ
deriving DecidableEq, Repr

/-- A fresh accumulator for a detection `p = (y, x, conf)`:
`{"sum_x": x_pos, "sum_y": y_pos, "count": 1, "max_conf": confidence}`. -/
def newAcc (p : ℚ × ℚ × ℚ) : ClusterAcc :=
  { sum_x := p.2.1, sum_y := p.1, count := 1, max_conf := p.2.2 }

/-- Merging a detection into an accumulator: add to the coordinate sums,
bump the count, and keep the larger confidence (the source writes
`if confidence > max_conf: max_conf = confidence`). -/
def mergeAcc (c : ClusterAcc) (p : ℚ × ℚ × ℚ) : ClusterAcc :=
  { sum_x := c.sum_x + p.2.1, sum_y := c.sum_y + p.1, count := c.count + 1,
    max_conf := if p.2.2 > c.max_conf then p.2.2 else c.max_conf }

/-- The source test `math.sqrt((x-cx)**2 + (y-cy)**2) < threshold`,
written on squares (every threshold passed is nonnegative). -/
def AccClose (thr : ℚ) (p : ℚ × ℚ × ℚ) (c : ClusterAcc) : Prop :=
  (p.2.1 - c.sum_x / (c.count : ℚ))^2 + (p.1 - c.sum_y / (c.count : ℚ))^2 < thr^2

instance (thr : ℚ) (p : ℚ × ℚ × ℚ) (c : ClusterAcc) : Decidable (AccClose thr p c) := by
  unfold AccClose; infer_instance

/-- The inner `for cluster in clusters: ... break` loop of `cluster_people`:
the detection is merged into the first accumulator within the radius,
otherwise appended as a new accumulator. -/
def addPerson (thr : ℚ) (cs : List ClusterAcc) (p : ℚ × ℚ × ℚ) : List ClusterAcc :=
  match cs with
  | [] => [newAcc p]
  | c :: rest =>
      if AccClose thr p c then mergeAcc c p :: rest
      else c :: addPerson thr rest p

/-- `cluster_people(people, threshold)` from the source: fold the greedy
single-pass clustering over the detections in insertion order, then emit
`(i, avg_x, avg_y, max_conf)` per accumulator. -/
def cluster_people (people : List (ℚ × ℚ × ℚ)) (thr : ℚ) : List (ℕ × ℚ × ℚ × ℚ) :=
  let clusters := people.foldl (addPerson thr) []
  clusters.enum.map (fun jc =>
    (jc.1, jc.2.sum_x / (jc.2.count : ℚ), jc.2.sum_y / (jc.2.count : ℚ), jc.2.max_conf))

/-- Modelled from the spec claim (not from the source): the index of the
NEAREST accumulator, together with its squared distance.  Used only to
compare the claim's nearest-merge reading against the source behaviour. -/
def bestIdx (p : ℚ × ℚ × ℚ) (cs : List ClusterAcc) : Option (ℕ × ℚ) :=
  cs.enum.foldl (fun best jc =>
    let d := (p.2.1 - jc.2.sum_x / (jc.2.count : ℚ))^2 + (p.1 - jc.2.sum_y / (jc.2.count : ℚ))^2
    match best with
    | none => some (jc.1, d)
    | some (j, bd) => if d < bd then some (jc.1, d) else some (j, bd)) none

/-- Modelled from the spec claim (not from the source): one step of
nearest-accumulator clustering. -/
def addPersonNearest (thr : ℚ) (cs : List ClusterAcc) (p : ℚ × ℚ × ℚ) : List ClusterAcc :=
  match bestIdx p cs with
  | some (j, d) =>
      if d < thr^2 then
        cs.enum.map (fun jc => if jc.1 = j then mergeAcc jc.2 p else jc.2)
      else cs ++ [newAcc p]
  | none => cs ++ [newAcc p]

/-- Modelled from the spec claim (not from the source): `cluster_people`
as the claim describes it, merging each detection into the nearest
accumulator within the radius. -/
def cluster_people_nearest (people : List (ℚ × ℚ × ℚ)) (thr : ℚ) : List (ℕ × ℚ × ℚ × ℚ) :=
  let clusters := people.foldl (addPersonNearest thr) []
  clusters.enum.map (fun jc =>
    (jc.1, jc.2.sum_x / (jc.2.count : ℚ), jc.2.sum_y / (jc.2.count : ℚ), jc.2.max_conf))

/-!  ## Crop window mapper

`process_frame` (lines 524-531): `crop_width = int(height * ASPECT_RATIO)`
with aspect ratio `9/16` (exact in binary floating point), then
`x_center = int(norm_center * width)`, `x_start = x_center - crop_width//2`,
clamped first at 0 and `elif` at `width - crop_width`; finally
`x_end = x_start + crop_width`.  `process_video` (lines 443-455) runs the
same arithmetic.  `int(...)` on the nonnegative products involved is the
floor. -/

/-- `crop_width = int(height * (9/16))`. -/
def cropWidth (height : ℕ) : ℕ := height * 9 / 16

/-- The crop window mapper shared by `process_video` and `process_frame`:
returns `(x_start, x_end)` in pixels. -/
def cropWindow (c : ℚ) (width cw : ℕ) : ℤ × ℤ :=
  let x_center : ℤ := ⌊c * (width : ℚ)⌋
  let x_start0 : ℤ := x_center - ((cw / 2 : ℕ) : ℤ)
  let x_start : ℤ :=
    if x_start0 < 0 then 0
    else if x_start0 + (cw : ℤ) > (width : ℤ) then (width : ℤ) - (cw : ℤ)
    else x_start0
  (x_start, x_start + (cw : ℤ))

/-!  ## Online subject tracker: `PersonTracker`

The tracker state mirrors `self.state` plus the instance constants
`wait_frames = 30` and `lock_frames = 45`.  The source initialises
`current_confidence` and `new_target['confidence']` to `None`; they are
modelled as `0` here, which is sound because the source only reads them
after they have been assigned (guarded by the `current_id` /
`new_target['id']` checks).  The status strings returned by `update` and
`handle_no_detection` are modelled as a tagged message type. -/

structure Cluster where
  id : ℕ
  x : ℚ
  y : ℚ
  conf : ℚ
deriving DecidableEq, Repr

structure NewTarget where
  id : Option ℕ
  confidence : ℚ
  frames : ℕ
deriving DecidableEq, Repr

structure TrackerState where
  current_id : Option ℕ
  current_confidence : ℚ
  position : ℚ × ℚ
  lost_frames : ℕ
  lock_countdown : ℕ
  new_target : NewTarget
deriving DecidableEq, Repr

/-- `wait_frames = 30`. -/
def wait_frames : ℕ := 30

/-- `lock_frames = 45`. -/
def lock_frames : ℕ := 45

/-- The state installed by `PersonTracker.__init__`; `reset()` restores
exactly these values. -/
def initTracker : TrackerState :=
  { current_id := none, current_confidence := 0,
    position := (DEFAULT_CENTER, DEFAULT_CENTER), lost_frames := 0,
    lock_countdown := 0, new_target := { id := none, confidence := 0, frames := 0 } }

/-- `PersonTracker.reset`. -/
def resetTracker : TrackerState := initTracker

/-- One status message per `return` statement of the tracker. -/
inductive TrackMsg where
  | sceneChange
  | initOn (id : ℕ)
  | movedTooFar (id : ℕ)
  | following (id : ℕ)
  | notStrong (id : ℕ)
  | inLock (id : ℕ)
  | candidateStarted (id : ℕ)
  | buffering (id : ℕ) (frames : ℕ)
  | switched (id : ℕ)
  | holding (lost : ℕ)
  | lostReset
deriving DecidableEq, Repr

/-- Squared displacement; `PersonTracker.distance` is its square root, and
the source only compares it against the nonnegative `movement_threshold`,
so the squared comparison below is equivalent. -/
def distSq (x1 y1 x2 y2 : ℚ) : ℚ := (x2 - x1)^2 + (y2 - y1)^2

/-- `PersonTracker.update(cluster, frame_diff, scene_change_threshold,
movement_threshold)`, lines 295-353 of the source. -/
def PersonTracker.update (s : TrackerState) (c : Cluster)
    (frame_diff scene_change_threshold movement_threshold : ℚ) :
    TrackerState × TrackMsg :=
  if frame_diff > scene_change_threshold then (resetTracker, .sceneChange)
  else
    let s := { s with lost_frames := s.lost_frames + 1 }
    match s.current_id with
    | none =>
        ({ s with current_id := some c.id, current_confidence := c.conf,
                  position := (c.x, c.y) }, .initOn c.id)
    | some cid =>
        if distSq s.position.1 s.position.2 c.x c.y > movement_threshold^2 then
          ({ s with current_id := some c.id, current_confidence := c.conf,
                    position := (c.x, c.y) }, .movedTooFar c.id)
        else if c.id = cid then
          ({ s with position := (c.x, c.y), current_confidence := c.conf,
                    new_target := { s.new_target with id := none, frames := 0 } },
           .following cid)
        else if c.conf < s.current_confidence + CONFIDENCE_MARGIN then
          ({ s with position := (c.x, c.y),
                    new_target := { s.new_target with id := none, frames := 0 } },
           .notStrong cid)
        else if 0 < s.lock_countdown then
          ({ s with position := (c.x, c.y) }, .inLock cid)
        else if s.new_target.id = none ∨ s.new_target.id ≠ some c.id then
          ({ s with new_target := { id := some c.id, confidence := c.conf, frames := 1 } },
           .candidateStarted c.id)
        else
          let nc := s.new_target.confidence
          let cc := s.current_confidence
          let nx := (nc * c.x + cc * s.position.1) / (nc + cc)
          let ny := (nc * c.y + cc * s.position.2) / (nc + cc)
          let s1 := { s with position := (nx, ny),
                             new_target := { s.new_target with
                                             frames := s.new_target.frames + 1 } }
          if wait_frames ≤ s1.new_target.frames then
            ({ s1 with current_id := s1.new_target.id, current_confidence := nc,
                       position := (nc * c.x + (1 - nc) * s1.position.1,
                                    nc * c.y + (1 - nc) * s1.position.2),
                       lock_countdown := lock_frames,
                       new_target := { s1.new_target with id := none, frames := 0 } },
             .switched c.id)
          else (s1, .buffering c.id s1.new_target.frames)

/-- `PersonTracker.handle_no_detection(frame_diff, scene_change_threshold)`,
lines 355-364 of the source. -/
def PersonTracker.handle_no_detection (s : TrackerState)
    (frame_diff scene_change_threshold : ℚ) : TrackerState × TrackMsg :=
  if frame_diff > scene_change_threshold then (resetTracker, .sceneChange)
  else
    let s := { s with lost_frames := s.lost_frames + 1 }
    if s.lost_frames < wait_frames then (s, .holding s.lost_frames)
    else (resetTracker, .lostReset)

/-- Iterated `update` with a fixed candidate cluster, frame difference 0,
scene-change threshold 3000 and movement threshold 30 — the thresholds
`process_frame` passes. -/
def iterTrack (c : Cluster) (n : ℕ) (s : TrackerState) : TrackerState :=
  match n with
  | 0 => s
  | m + 1 => iterTrack c m (PersonTracker.update s c 0 3000 30).1

/-- Invariant of the candidate-pending phase: the tracker is still locked
on subject `i` with its original confidence `cc0`, no lock is active, the
pending target is `c` with `n` accrued frames, and the position is inside
the unit square. -/
def RivalInv (i : ℕ) (cc0 : ℚ) (c : Cluster) (n : ℕ) (s : TrackerState) : Prop :=
  s.current_id = some i ∧ s.current_confidence = cc0 ∧ s.lock_countdown = 0 ∧
  s.new_target = ⟨some c.id, c.conf, n⟩ ∧
  0 ≤ s.position.1 ∧ s.position.1 ≤ 1 ∧ 0 ≤ s.position.2 ∧ s.position.2 ≤ 1

/-!  ## Offline movement planner: `MovementPlanner`

State fields mirror the mutable attributes; the constant attributes
`smoothing_rate = 0.05` (never read), `max_movement_per_frame = 0.03`,
`history_size = 3`, `centering_weight = 0.4`,
`fast_transition_threshold = 0.1` and `default_x = DEFAULT_CENTER` are
top-level constants.  `stable_frames_required = int(fps * 0.5)` is kept in
the state since it depends on the frame rate (`int` truncation equals the
floor for the nonnegative frame rates a video supplies). -/

def max_movement_per_frame : ℚ := 3/100

def history_size : ℕ := 3

def centering_weight : ℚ := 2/5

def fast_transition_threshold : ℚ := 1/10

structure PlannerState where
  frame_data : List (ℕ × ℚ × Bool)
  current_scene_start : ℕ
  waiting_for_detection : Bool
  position_history : List ℚ
  stable_frames : ℕ
  stable_frames_required : ℕ
  is_centering : Bool
  in_transition : Bool
deriving DecidableEq, Repr

/-- `frame_data[-1]` as an option: the last record of the list, if any. -/
def lastRecord : List (ℕ × ℚ × Bool) → Option (ℕ × ℚ × Bool)
  | [] => none
  | [r] => some r
  | _ :: rs => lastRecord rs

/-- `MovementPlanner.__init__(fps)`. -/
def initPlanner (fps : ℚ) : PlannerState :=
  { frame_data := [], current_scene_start := 0, waiting_for_detection := false,
    position_history := [], stable_frames := 0,
    stable_frames_required := (⌊fps * (1/2 : ℚ)⌋).toNat,
    is_centering := false, in_transition := false }

/-- `MovementPlanner.plan_movement(frame_num, cluster, frame_diff,
scene_change_threshold)`, lines 132-194 of the source.  The `cluster`
argument is the best cluster's normalized x (`cluster[1]`), the only
component the method reads; `None` stands for a frame with no cluster. -/
def plan_movement (s : PlannerState) (frame_num : ℕ) (cluster : Option ℚ)
    (frame_diff scene_change_threshold : ℚ) : PlannerState :=
  if frame_diff > scene_change_threshold then
    { s with position_history := [], in_transition := false, stable_frames := 0,
             is_centering := false,
             frame_data := s.frame_data ++ [(frame_num, DEFAULT_CENTER, true)],
             current_scene_start := frame_num, waiting_for_detection := true }
  else if h : s.waiting_for_detection = true ∧ cluster.isSome = true then
    { s with
      frame_data := s.frame_data.map (fun r =>
        if s.current_scene_start ≤ r.1 ∧ r.2.2 = false then (r.1, cluster.get h.2, false)
        else r),
      waiting_for_detection := false }
  else
    let target_x0 : ℚ :=
      match cluster with
      | some x => x
      | none =>
          match lastRecord s.frame_data with
          | none => DEFAULT_CENTER
          | some r => r.2.1
    match lastRecord s.frame_data with
    | none => { s with frame_data := s.frame_data ++ [(frame_num, target_x0, false)] }
    | some last =>
        let last_x := last.2.1
        let distance_to_target := |target_x0 - last_x|
        let movement := target_x0 - last_x
        let target_x1 :=
          if max_movement_per_frame < |movement| then
            last_x + (if 0 < movement then max_movement_per_frame
                      else -max_movement_per_frame)
          else target_x0
        let stable1 :=
          if distance_to_target < fast_transition_threshold then s.stable_frames + 1 else 0
        let centering1 :=
          if distance_to_target < fast_transition_threshold then
            (if s.stable_frames_required ≤ stable1 then true else s.is_centering)
          else false
        let history1 :=
          if distance_to_target < fast_transition_threshold then s.position_history else []
        if centering1 then
          let h1 := history1 ++ [target_x1]
          let h2 := if history_size < h1.length then h1.drop 1 else h1
          let target_x2 :=
            if 1 < h2.length then
              target_x1 * (1 - centering_weight) + (h2.sum / (h2.length : ℚ)) * centering_weight
            else target_x1
          { s with stable_frames := stable1, is_centering := true, position_history := h2,
                   frame_data := s.frame_data ++ [(frame_num, target_x2, false)] }
        else
          { s with stable_frames := stable1, is_centering := false, position_history := history1,
                   frame_data := s.frame_data ++ [(frame_num, target_x1, false)] }

/-- The loop body of `MovementPlanner.get_scene_segments`: walk the records
with their index `i`, the current segment start and the positions collected
so far; returns the closed segments plus the final open
`(current_segment_start, current_positions)`. -/
def segGo (l : List (ℕ × ℚ × Bool)) (i : ℕ) (cstart : ℕ) (cpos : List ℚ) :
    List (ℕ × ℕ × List ℚ) × ℕ × List ℚ :=
  match l with
  | [] => ([], cstart, cpos)
  | (fn, x, sc) :: rest =>
      if sc = true ∧ 0 < i then
        let out := segGo rest (i + 1) fn [x]
        ((cstart, fn - 1, cpos) :: out.1, out.2)
      else segGo rest (i + 1) cstart (cpos ++ [x])

/-- `MovementPlanner.get_scene_segments`, lines 196-227.  The source reads
`frame_data[-1][0]` for the final segment only when `current_positions` is
nonempty (which forces `frame_data` nonempty); the `getD 0` default is
therefore never exercised. -/
def get_scene_segments (fd : List (ℕ × ℚ × Bool)) : List (ℕ × ℕ × List ℚ) :=
  let r := segGo fd 0 0 []
  if r.2.2 ≠ [] then r.1 ++ [(r.2.1, ((lastRecord fd).map Prod.fst).getD 0, r.2.2)]
  else r.1

/-- `base_alpha = 0.1` (default argument of `interpolate_and_smooth`). -/
def base_alpha : ℚ := 1/10

/-- `delta_threshold = 0.015` (default argument of `interpolate_and_smooth`). -/
def delta_threshold : ℚ := 3/200

/-- One iteration of the smoothing loop body (lines 244-259): deadband hold,
otherwise adaptive ease toward the raw target. -/
def smoothStep (last_x target_x : ℚ) : ℚ :=
  let delta := target_x - last_x
  if |delta| < delta_threshold then last_x
  else
    let distance_factor := min (|delta| * 2) 1
    let deceleration_alpha := base_alpha * distance_factor
    let a := if |delta| < 1/10 then deceleration_alpha * (1/2) else deceleration_alpha
    last_x + a * delta

/-- The sequence of smoothed values a segment produces, seeded from the
segment's first raw position. -/
def smoothVals (last_x : ℚ) : List ℚ → List ℚ
  | [] => []
  | t :: ts => smoothStep last_x t :: smoothVals (smoothStep last_x t) ts

/-- Successive assignments `smoothed_centers[frame] = v` starting at index
`i`.  (`List.set` ignores an out-of-range index; the source would raise
there, a situation none of the analysed runs reaches.) -/
def writeAt (centers : List ℚ) (i : ℕ) (vals : List ℚ) : List ℚ :=
  match vals with
  | [] => centers
  | v :: vs => writeAt (centers.set i v) (i + 1) vs

/-- The per-segment smoothing loop of `interpolate_and_smooth`
(lines 238-262): the loop writes `min(end_frame + 1 - start_frame,
len(positions))` values — it breaks once `i ≥ len(positions)` and the
range runs out at `end_frame`. -/
def smoothSegment (centers : List ℚ) (seg : ℕ × ℕ × List ℚ) : List ℚ :=
  match seg.2.2 with
  | [] => centers
  | p0 :: _ =>
      writeAt centers seg.1
        ((smoothVals p0 seg.2.2).take (min (seg.2.1 + 1 - seg.1) seg.2.2.length))

/-- `MovementPlanner.interpolate_and_smooth(total_frames)` with the default
`base_alpha` and `delta_threshold`, as `process_video` calls it. -/
def interpolate_and_smooth (fd : List (ℕ × ℚ × Bool)) (total_frames : ℕ) : List ℚ :=
  (get_scene_segments fd).foldl smoothSegment (List.replicate total_frames DEFAULT_CENTER)

/-- A Pass-1 run on a sequence of frames whose frame-differences are given
by `d` and whose primary candidate sits at the constant normalized x `p`
on every frame, with the scene-change threshold 3000 `process_video`
passes. -/
def constantRun (p fps : ℚ) (d : ℕ → ℚ) (n : ℕ) : PlannerState :=
  (List.range n).foldl (fun s k => plan_movement s k (some p) (d k) 3000) (initPlanner fps)

/-- A Pass-1 run over an explicit call list: each entry carries the frame
number, the primary candidate's x (or none) and the frame difference; the
scene-change threshold is the 3000 `process_video` passes. -/
def runPlan (fps : ℚ) (calls : List (ℕ × Option ℚ × ℚ)) : PlannerState :=
  calls.foldl (fun s c => plan_movement s c.1 c.2.1 c.2.2 3000) (initPlanner fps)

/-- Two points of the unit square are never farther apart than √2, stated
on the squared distance. -/
theorem distSq_le_two (x1 y1 x2 y2 : ℚ) (h1 : 0 ≤ x1) (h2 : x1 ≤ 1) (h3 : 0 ≤ y1)
    (h4 : y1 ≤ 1) (h5 : 0 ≤ x2) (h6 : x2 ≤ 1) (h7 : 0 ≤ y2) (h8 : y2 ≤ 1) :
    distSq x1 y1 x2 y2 ≤ 2 := by
  unfold distSq
  nlinarith [mul_nonneg (by linarith : (0:ℚ) ≤ 1 - (x2 - x1)) (by linarith : (0:ℚ) ≤ 1 + (x2 - x1)),
    mul_nonneg (by linarith : (0:ℚ) ≤ 1 - (y2 - y1)) (by linarith : (0:ℚ) ≤ 1 + (y2 - y1))]

/-- A confidence-weighted average of two unit-interval values stays in the
unit interval. -/
theorem blend_mem (a b u v : ℚ) (ha : 0 < a) (hb : 0 ≤ b) (hu1 : 0 ≤ u) (hu2 : u ≤ 1)
    (hv1 : 0 ≤ v) (hv2 : v ≤ 1) :
    0 ≤ (a * u + b * v) / (a + b) ∧ (a * u + b * v) / (a + b) ≤ 1 := by
  have hab : (0:ℚ) < a + b := by linarith
  constructor
  · exact div_nonneg (by nlinarith) hab.le
  · rw [div_le_one hab]; nlinarith

/-- Branch lemma: a candidate matching the current id (within the movement
threshold, no scene cut) takes the `following` branch. -/
theorem update_follow (s : TrackerState) (c : Cluster) (hid : s.current_id = some c.id)
    (hd : distSq s.position.1 s.position.2 c.x c.y ≤ 900) :
    PersonTracker.update s c 0 3000 30 =
      ({ s with lost_frames := s.lost_frames + 1, position := (c.x, c.y),
                current_confidence := c.conf,
                new_target := { s.new_target with id := none, frames := 0 } },
       TrackMsg.following c.id) := by
  obtain ⟨cid, cc, pos, lf, lc, nt⟩ := s
  simp only at hid hd
  subst hid
  simp only [PersonTracker.update]
  rw [if_neg (by norm_num : ¬ (0:ℚ) > 3000)]
  rw [if_neg (by rw [gt_iff_lt, not_lt]; norm_num; exact hd), if_pos trivial]

/-- Branch lemma: a rival detection whose confidence fails the 0.15 margin
takes the `notStrong` branch — position still updated, pending candidate
cleared, current subject unchanged. -/
theorem update_notStrong (s : TrackerState) (c : Cluster) (i : ℕ)
    (hid : s.current_id = some i) (hne : c.id ≠ i)
    (hconf : c.conf < s.current_confidence + CONFIDENCE_MARGIN)
    (hd : distSq s.position.1 s.position.2 c.x c.y ≤ 900) :
    PersonTracker.update s c 0 3000 30 =
      ({ s with lost_frames := s.lost_frames + 1, position := (c.x, c.y),
                new_target := { s.new_target with id := none, frames := 0 } },
       TrackMsg.notStrong i) := by
  obtain ⟨cid, cc, pos, lf, lc, nt⟩ := s
  simp only at hid hconf hd
  subst hid
  simp only [PersonTracker.update]
  rw [if_neg (by norm_num : ¬ (0:ℚ) > 3000)]
  rw [if_neg (by rw [gt_iff_lt, not_lt]; norm_num; exact hd), if_neg hne, if_pos hconf]

/-- Branch lemma: a strong rival arriving while `lock_countdown > 0` takes
the `inLock` branch — position updated, everything else (including the
countdown itself) untouched. -/
theorem update_inLock (s : TrackerState) (c : Cluster) (i : ℕ)
    (hid : s.current_id = some i) (hne : c.id ≠ i)
    (hconf : s.current_confidence + CONFIDENCE_MARGIN ≤ c.conf)
    (hlock : 0 < s.lock_countdown)
    (hd : distSq s.position.1 s.position.2 c.x c.y ≤ 900) :
    PersonTracker.update s c 0 3000 30 =
      ({ s with lost_frames := s.lost_frames + 1, position := (c.x, c.y) },
       TrackMsg.inLock i) := by
  obtain ⟨cid, cc, pos, lf, lc, nt⟩ := s
  simp only at hid hconf hlock hd
  subst hid
  simp only [PersonTracker.update]
  rw [if_neg (by norm_num : ¬ (0:ℚ) > 3000)]
  rw [if_neg (by rw [gt_iff_lt, not_lt]; norm_num; exact hd), if_neg hne,
    if_neg (not_lt.mpr hconf), if_pos hlock]

/-- Branch lemma: a strong rival with no active lock and no matching pending
candidate starts the pending counter at 1 (position NOT updated on this
frame, mirroring lines 331-335). -/
theorem update_rival_start (s : TrackerState) (c : Cluster) (i : ℕ)
    (hid : s.current_id = some i) (hne : c.id ≠ i)
    (hconf : s.current_confidence + CONFIDENCE_MARGIN ≤ c.conf)
    (hlock : s.lock_countdown = 0)
    (hnt : s.new_target.id = none ∨ s.new_target.id ≠ some c.id)
    (hd : distSq s.position.1 s.position.2 c.x c.y ≤ 900) :
    PersonTracker.update s c 0 3000 30 =
      ({ s with lost_frames := s.lost_frames + 1,
                new_target := { id := some c.id, confidence := c.conf, frames := 1 } },
       TrackMsg.candidateStarted c.id) := by
  obtain ⟨cid, cc, pos, lf, lc, nt⟩ := s
  simp only at hid hconf hlock hnt hd
  subst hid hlock
  simp only [PersonTracker.update]
  rw [if_neg (by norm_num : ¬ (0:ℚ) > 3000)]
  rw [if_neg (by rw [gt_iff_lt, not_lt]; norm_num; exact hd), if_neg hne,
    if_neg (not_lt.mpr hconf), if_neg (by norm_num), if_pos hnt]

/-- Branch lemma: a strong rival matching the pending candidate, short of the
30-frame buffer, re-blends the position and bumps the pending frame count. -/
theorem update_rival_pending (s : TrackerState) (c : Cluster) (i : ℕ)
    (hid : s.current_id = some i) (hne : c.id ≠ i)
    (hconf : s.current_confidence + CONFIDENCE_MARGIN ≤ c.conf)
    (hlock : s.lock_countdown = 0)
    (hnt : s.new_target.id = some c.id)
    (hframes : s.new_target.frames + 1 < 30)
    (hd : distSq s.position.1 s.position.2 c.x c.y ≤ 900) :
    PersonTracker.update s c 0 3000 30 =
      ({ s with lost_frames := s.lost_frames + 1,
                position :=
                  ((s.new_target.confidence * c.x + s.current_confidence * s.position.1) /
                     (s.new_target.confidence + s.current_confidence),
                   (s.new_target.confidence * c.y + s.current_confidence * s.position.2) /
                     (s.new_target.confidence + s.current_confidence)),
                new_target := { s.new_target with frames := s.new_target.frames + 1 } },
       TrackMsg.buffering c.id (s.new_target.frames + 1)) := by
  obtain ⟨cid, cc, pos, lf, lc, nt⟩ := s
  simp only at hid hconf hlock hnt hframes hd
  subst hid hlock
  simp only [PersonTracker.update]
  rw [if_neg (by norm_num : ¬ (0:ℚ) > 3000)]
  rw [if_neg (by rw [gt_iff_lt, not_lt]; norm_num; exact hd), if_neg hne,
    if_neg (not_lt.mpr hconf), if_neg (by norm_num),
    if_neg (by rw [hnt]; simp),
    if_neg (by simp only [wait_frames]; omega)]

/-- Branch lemma: the 30th consecutive pending frame commits the switch; only
the resulting `current_id` is stated, which is all the hysteresis claim
needs. -/
theorem update_rival_switch_id (s : TrackerState) (c : Cluster) (i : ℕ)
    (hid : s.current_id = some i) (hne : c.id ≠ i)
    (hconf : s.current_confidence + CONFIDENCE_MARGIN ≤ c.conf)
    (hlock : s.lock_countdown = 0)
    (hnt : s.new_target.id = some c.id)
    (hframes : 30 ≤ s.new_target.frames + 1)
    (hd : distSq s.position.1 s.position.2 c.x c.y ≤ 900) :
    (PersonTracker.update s c 0 3000 30).1.current_id = some c.id := by
  obtain ⟨cid, cc, pos, lf, lc, nt⟩ := s
  simp only at hid hconf hlock hnt hframes hd
  subst hid hlock
  simp only [PersonTracker.update]
  rw [if_neg (by norm_num : ¬ (0:ℚ) > 3000)]
  rw [if_neg (by rw [gt_iff_lt, not_lt]; norm_num; exact hd), if_neg hne,
    if_neg (not_lt.mpr hconf), if_neg (by norm_num),
    if_neg (by rw [hnt]; simp),
    if_pos (by simp only [wait_frames]; omega)]
  simp [hnt]

/-- `iterTrack` peeled from the back: iterating `m + 1` times is one update
after iterating `m` times. -/
theorem iterTrack_succ (c : Cluster) (m : ℕ) (s : TrackerState) :
    iterTrack c (m + 1) s = (PersonTracker.update (iterTrack c m s) c 0 3000 30).1 := by
  induction m generalizing s with
  | zero => rfl
  | succ k ih => exact ih ((PersonTracker.update s c 0 3000 30).1)

/-- Starting a pending candidate establishes the rival invariant at 1. -/
theorem rival_start_inv (s : TrackerState) (c : Cluster) (i : ℕ)
    (hid : s.current_id = some i) (hne : c.id ≠ i)
    (hconf : s.current_confidence + CONFIDENCE_MARGIN ≤ c.conf)
    (hlock : s.lock_countdown = 0) (hnt : s.new_target.id = none)
    (hp1 : 0 ≤ s.position.1) (hp2 : s.position.1 ≤ 1)
    (hp3 : 0 ≤ s.position.2) (hp4 : s.position.2 ≤ 1)
    (hcx1 : 0 ≤ c.x) (hcx2 : c.x ≤ 1) (hcy1 : 0 ≤ c.y) (hcy2 : c.y ≤ 1) :
    RivalInv i s.current_confidence c 1 (PersonTracker.update s c 0 3000 30).1 := by
  have hd : distSq s.position.1 s.position.2 c.x c.y ≤ 900 :=
    le_trans (distSq_le_two _ _ _ _ hp1 hp2 hp3 hp4 hcx1 hcx2 hcy1 hcy2)
      (by norm_num : (2:ℚ) ≤ 900)
  rw [update_rival_start s c i hid hne hconf hlock (Or.inl hnt) hd]
  exact ⟨hid, rfl, hlock, rfl, hp1, hp2, hp3, hp4⟩

/-- A further frame of the same pending candidate preserves the rival
invariant, bumping the pending count, as long as the buffer has not run
out. -/
theorem rival_pending_inv (c : Cluster) (i : ℕ) (cc0 : ℚ) (n : ℕ) (s : TrackerState)
    (hne : c.id ≠ i) (hconf : cc0 + CONFIDENCE_MARGIN ≤ c.conf) (hcc : 0 ≤ cc0)
    (hcx1 : 0 ≤ c.x) (hcx2 : c.x ≤ 1) (hcy1 : 0 ≤ c.y) (hcy2 : c.y ≤ 1)
    (hInv : RivalInv i cc0 c n s) (hn : n + 1 < 30) :
    RivalInv i cc0 c (n + 1) (PersonTracker.update s c 0 3000 30).1 := by
  obtain ⟨hid, hcc0, hlock, hnt, hp1, hp2, hp3, hp4⟩ := hInv
  have hd : distSq s.position.1 s.position.2 c.x c.y ≤ 900 :=
    le_trans (distSq_le_two _ _ _ _ hp1 hp2 hp3 hp4 hcx1 hcx2 hcy1 hcy2)
      (by norm_num : (2:ℚ) ≤ 900)
  have hntid : s.new_target.id = some c.id := by rw [hnt]
  have hframes : s.new_target.frames + 1 < 30 := by rw [hnt]; exact hn
  have hcpos : 0 < c.conf := by
    simp only [CONFIDENCE_MARGIN] at hconf; linarith
  rw [update_rival_pending s c i hid hne (by rw [hcc0]; exact hconf) hlock hntid hframes hd]
  refine ⟨hid, hcc0, hlock, by rw [hnt], ?_, ?_, ?_, ?_⟩ <;>
    simp only [hnt, hcc0]
  · exact (blend_mem c.conf cc0 c.x s.position.1 hcpos hcc hcx1 hcx2 hp1 hp2).1
  · exact (blend_mem c.conf cc0 c.x s.position.1 hcpos hcc hcx1 hcx2 hp1 hp2).2
  · exact (blend_mem c.conf cc0 c.y s.position.2 hcpos hcc hcy1 hcy2 hp3 hp4).1
  · exact (blend_mem c.conf cc0 c.y s.position.2 hcpos hcc hcy1 hcy2 hp3 hp4).2

/-- Iterating the pending phase preserves the rival invariant while the
pending count stays under the 30-frame buffer. -/
theorem rival_iter_inv (c : Cluster) (i : ℕ) (cc0 : ℚ)
    (hne : c.id ≠ i) (hconf : cc0 + CONFIDENCE_MARGIN ≤ c.conf) (hcc : 0 ≤ cc0)
    (hcx1 : 0 ≤ c.x) (hcx2 : c.x ≤ 1) (hcy1 : 0 ≤ c.y) (hcy2 : c.y ≤ 1) :
    ∀ (m n : ℕ) (s : TrackerState), RivalInv i cc0 c n s → n + m < 30 →
      RivalInv i cc0 c (n + m) (iterTrack c m s) := by
  intro m
  induction m with
  | zero => intro n s h _; simpa using h
  | succ k ih =>
      intro n s h hlt
      have h1 : RivalInv i cc0 c (n + 1) (PersonTracker.update s c 0 3000 30).1 :=
        rival_pending_inv c i cc0 n s hne hconf hcc hcx1 hcx2 hcy1 hcy2 h (by omega)
      have heq : n + (k + 1) = (n + 1) + k := by omega
      rw [heq]
      exact ih (n + 1) _ h1 (by omega)

/-- Every branch of `update` reachable without a scene cut increments
`lost_frames`, candidate or not (line 300 of the source). -/
theorem update_lost (s : TrackerState) (c : Cluster) :
    (PersonTracker.update s c 0 3000 30).1.lost_frames = s.lost_frames + 1 := by
  obtain ⟨cid, cc, pos, lf, lc, nt⟩ := s
  cases cid
  · simp only [PersonTracker.update]
    rw [if_neg (by norm_num : ¬ (0:ℚ) > 3000)]
  · simp only [PersonTracker.update]
    rw [if_neg (by norm_num : ¬ (0:ℚ) > 3000)]
    split_ifs <;> rfl

/-- Iterating `update` adds one to `lost_frames` per frame, with a candidate
present on every frame. -/
theorem iterTrack_lost (c : Cluster) : ∀ (n : ℕ) (s : TrackerState),
    (iterTrack c n s).lost_frames = s.lost_frames + n := by
  intro n
  induction n with
  | zero => intro s; rfl
  | succ k ih =>
      intro s
      show (iterTrack c k (PersonTracker.update s c 0 3000 30).1).lost_frames =
        s.lost_frames + (k + 1)
      rw [ih, update_lost]
      omega

/-- Unfolding lemma for the cons case of `addPerson`. -/
theorem addPerson_cons (thr : ℚ) (p : ℚ × ℚ × ℚ) (c : ClusterAcc) (rest : List ClusterAcc) :
    addPerson thr (c :: rest) p =
      if AccClose thr p c then mergeAcc c p :: rest else c :: addPerson thr rest p := rfl

/-- C9 (amended): in `cluster_people`, each detection (in insertion order) is
merged into the FIRST existing accumulator whose running centroid is within
Euclidean distance 0.05 — not necessarily the nearest one — the merge keeping
the running coordinate sums (hence the running mean) and the max confidence;
a detection within distance of no accumulator starts a new one, and an empty
input yields an empty output. -/
theorem cluster_people_first_fit (thr : ℚ) (p : ℚ × ℚ × ℚ) :
    cluster_people [] thr = [] ∧
    (∀ l1 c l2, (∀ c' ∈ l1, ¬ AccClose thr p c') → AccClose thr p c →
      addPerson thr (l1 ++ c :: l2) p = l1 ++ mergeAcc c p :: l2) ∧
    (∀ cs : List ClusterAcc, (∀ c' ∈ cs, ¬ AccClose thr p c') →
      addPerson thr cs p = cs ++ [newAcc p]) := by
  refine ⟨rfl, ?_, ?_⟩
  · intro l1 c l2 h1 hc
    induction l1 with
    | nil => simp only [List.nil_append, addPerson_cons, if_pos hc]
    | cons a as ih =>
        have ha : ¬ AccClose thr p a := h1 a (List.mem_cons_self a as)
        simp only [List.cons_append, addPerson_cons, if_neg ha]
        rw [ih (fun c' hc' => h1 c' (List.mem_cons_of_mem a hc'))]
  · intro cs h
    induction cs with
    | nil => rfl
    | cons a as ih =>
        have ha : ¬ AccClose thr p a := h a (List.mem_cons_self a as)
        simp only [addPerson_cons, if_neg ha, List.cons_append]
        rw [ih (fun c' hc' => h c' (List.mem_cons_of_mem a hc'))]

/-- Witness for `cluster_people_first_fit` at a concrete input: the detection
`(y, x, conf) = (0, 0.045, 0.8)` is far from the accumulator centred at
`x = 0.1` and close to the one centred at `x = 0`. -/
theorem cluster_people_first_fit_witness :
    cluster_people [] (1/20) = [] ∧
    addPerson (1/20) [⟨1/10, 0, 1, 1/2⟩, ⟨0, 0, 1, 1/2⟩] ((0 : ℚ), (9 : ℚ)/200, (4 : ℚ)/5) =
      [⟨1/10, 0, 1, 1/2⟩] ++ mergeAcc ⟨0, 0, 1, 1/2⟩ ((0 : ℚ), (9 : ℚ)/200, (4 : ℚ)/5) :: [] ∧
    addPerson (1/20) [⟨1/10, 0, 1, 1/2⟩] ((0 : ℚ), (9 : ℚ)/200, (4 : ℚ)/5) =
      [⟨1/10, 0, 1, 1/2⟩] ++ [newAcc ((0 : ℚ), (9 : ℚ)/200, (4 : ℚ)/5)] :=
  ⟨(cluster_people_first_fit (1/20) ((0 : ℚ), (9 : ℚ)/200, (4 : ℚ)/5)).1,
   (cluster_people_first_fit (1/20) ((0 : ℚ), (9 : ℚ)/200, (4 : ℚ)/5)).2.1
     [⟨1/10, 0, 1, 1/2⟩] ⟨0, 0, 1, 1/2⟩ []
     (by intro c' hc'
         simp only [List.mem_singleton] at hc'
         subst hc'
         norm_num [AccClose])
     (by norm_num [AccClose]),
   (cluster_people_first_fit (1/20) ((0 : ℚ), (9 : ℚ)/200, (4 : ℚ)/5)).2.2
     [⟨1/10, 0, 1, 1/2⟩]
     (by intro c' hc'
         simp only [List.mem_singleton] at hc'
         subst hc'
         norm_num [AccClose])⟩

/-- C9 counterexample: with detections at x = 0, 0.06, 0.045 (all on y = 0),
the third detection is within the 0.05 radius of both accumulators and
strictly nearer to the second (distance 0.015 versus 0.045), yet the source
merges it into the first; the nearest-merge reading of the claim produces a
different output. -/
theorem cluster_first_not_nearest :
    cluster_people [(0, 0, 1/2), (0, 3/50, 1/2), (0, 9/200, 4/5)] (1/20) =
      [(0, 9/400, 0, 4/5), (1, 3/50, 0, 1/2)] ∧
    cluster_people_nearest [(0, 0, 1/2), (0, 3/50, 1/2), (0, 9/200, 4/5)] (1/20) =
      [(0, 0, 0, 1/2), (1, 21/400, 0, 4/5)] ∧
    cluster_people [(0, 0, 1/2), (0, 3/50, 1/2), (0, 9/200, 4/5)] (1/20) ≠
      cluster_people_nearest [(0, 0, 1/2), (0, 3/50, 1/2), (0, 9/200, 4/5)] (1/20) := by
  refine ⟨?_, ?_, ?_⟩
  · norm_num [cluster_people, List.foldl, addPerson, AccClose, newAcc, mergeAcc,
      List.enum, List.enumFrom]
  · norm_num [cluster_people_nearest, List.foldl, addPersonNearest, bestIdx,
      newAcc, mergeAcc, List.enum, List.enumFrom]
  · intro h
    have h1 : cluster_people [(0, 0, 1/2), (0, 3/50, 1/2), (0, 9/200, 4/5)] (1/20) =
        [(0, 9/400, 0, 4/5), (1, 3/50, 0, 1/2)] := by
      norm_num [cluster_people, List.foldl, addPerson, AccClose, newAcc, mergeAcc,
        List.enum, List.enumFrom]
    have h2 : cluster_people_nearest [(0, 0, 1/2), (0, 3/50, 1/2), (0, 9/200, 4/5)] (1/20) =
        [(0, 0, 0, 1/2), (1, 21/400, 0, 4/5)] := by
      norm_num [cluster_people_nearest, List.foldl, addPersonNearest, bestIdx,
        newAcc, mergeAcc, List.enum, List.enumFrom]
    rw [h1, h2] at h
    norm_num at h

/-- C3 (amended): the crop window mapper always returns a rectangle of width
exactly `cw`, and whenever the crop width does not exceed the source width the
rectangle is fully contained in `[0, width]`.  (When `cw > width` the mapper
raises no error but the rectangle is NOT contained, see
`crop_window_escapes_source`.) -/
theorem crop_window_contained (c : ℚ) (width cw : ℕ) (h : cw ≤ width) :
    (cropWindow c width cw).2 = (cropWindow c width cw).1 + (cw : ℤ) ∧
    0 ≤ (cropWindow c width cw).1 ∧ (cropWindow c width cw).2 ≤ (width : ℤ) := by
  have hcw : (cw : ℤ) ≤ (width : ℤ) := by exact_mod_cast h
  unfold cropWindow
  dsimp only
  split_ifs with h1 h2
  · exact ⟨rfl, le_rfl, by omega⟩
  · exact ⟨rfl, by omega, by omega⟩
  · exact ⟨rfl, by omega, by omega⟩

/-- Witness for `crop_window_contained`: centre 0.5, source width 100,
crop width 56. -/
theorem crop_window_contained_witness :
    (cropWindow (1/2) 100 56).2 = (cropWindow (1/2) 100 56).1 + ((56 : ℕ) : ℤ) ∧
    0 ≤ (cropWindow (1/2) 100 56).1 ∧ (cropWindow (1/2) 100 56).2 ≤ ((100 : ℕ) : ℤ) :=
  crop_window_contained (1/2) 100 56 (by norm_num)

/-- C3 counterexample: a 400-pixel-tall, 100-pixel-wide source gives crop
width `int(400 * 9/16) = 225 > 100`; at centre 0.5 the mapper returns the
rectangle `[0, 225]`, which is not contained in `[0, 100]` (and no error is
signalled). -/
theorem crop_window_escapes_source :
    cropWidth 400 = 225 ∧
    (cropWindow (1/2) 100 (cropWidth 400)).1 = 0 ∧
    (cropWindow (1/2) 100 (cropWidth 400)).2 = 225 ∧
    ¬ ((cropWindow (1/2) 100 (cropWidth 400)).2 ≤ ((100 : ℕ) : ℤ)) := by
  have hf : (⌊(1/2 : ℚ) * ((100 : ℕ) : ℚ)⌋ : ℤ) = 50 := by norm_num
  refine ⟨by decide, ?_, ?_, ?_⟩ <;>
    simp only [cropWindow, cropWidth, hf] <;> norm_num

/-- C1 (code bug): `lock_countdown` is never decremented by the source — no
statement of `update` ever lowers it — so after a committed switch sets it to
45 a strong rival is suppressed on EVERY subsequent frame, not just the first
45: for all `n`, `n` frames after entering a locked state the countdown and
the (empty) pending candidate are unchanged and the subject has not
switched. -/
theorem lock_never_decrements (s : TrackerState) (c : Cluster) (i : ℕ)
    (hne : c.id ≠ i)
    (hid : s.current_id = some i)
    (hconf : s.current_confidence + CONFIDENCE_MARGIN ≤ c.conf)
    (hlock : 0 < s.lock_countdown)
    (hcx1 : 0 ≤ c.x) (hcx2 : c.x ≤ 1) (hcy1 : 0 ≤ c.y) (hcy2 : c.y ≤ 1)
    (hp1 : 0 ≤ s.position.1) (hp2 : s.position.1 ≤ 1)
    (hp3 : 0 ≤ s.position.2) (hp4 : s.position.2 ≤ 1) :
    ∀ n, (iterTrack c n s).lock_countdown = s.lock_countdown ∧
         (iterTrack c n s).new_target = s.new_target ∧
         (iterTrack c n s).current_id = some i := by
  suffices h : ∀ (n : ℕ) (t : TrackerState), t.current_id = some i →
      t.current_confidence + CONFIDENCE_MARGIN ≤ c.conf → 0 < t.lock_countdown →
      0 ≤ t.position.1 → t.position.1 ≤ 1 → 0 ≤ t.position.2 → t.position.2 ≤ 1 →
      (iterTrack c n t).lock_countdown = t.lock_countdown ∧
      (iterTrack c n t).new_target = t.new_target ∧
      (iterTrack c n t).current_id = some i by
    exact fun n => h n s hid hconf hlock hp1 hp2 hp3 hp4
  intro n
  induction n with
  | zero => intro t h1 _ _ _ _ _ _; exact ⟨rfl, rfl, h1⟩
  | succ k ih =>
      intro t h1 h2 h3 h4 h5 h6 h7
      have hd : distSq t.position.1 t.position.2 c.x c.y ≤ 900 :=
        le_trans (distSq_le_two _ _ _ _ h4 h5 h6 h7 hcx1 hcx2 hcy1 hcy2)
          (by norm_num : (2:ℚ) ≤ 900)
      have hstep := update_inLock t c i h1 hne h2 h3 hd
      have hrw : iterTrack c (k + 1) t =
          iterTrack c k ({ t with lost_frames := t.lost_frames + 1,
                                  position := (c.x, c.y) }) := by
        show iterTrack c k (PersonTracker.update t c 0 3000 30).1 = _
        rw [hstep]
      rw [hrw]
      exact ih _ h1 h2 h3 hcx1 hcx2 hcy1 hcy2

/-- Witness for `lock_never_decrements`: a freshly locked tracker (countdown
45, as a committed switch leaves it), a strong rival with id 2, and 46
frames — one more than the lock is documented to last. -/
theorem lock_never_decrements_witness :
    (iterTrack ⟨2, 1/2, 1/2, 9/10⟩ 46
        ⟨some 1, 7/10, (1/2, 1/2), 31, 45, ⟨none, 7/10, 0⟩⟩).lock_countdown =
      (⟨some 1, 7/10, (1/2, 1/2), 31, 45, ⟨none, 7/10, 0⟩⟩ : TrackerState).lock_countdown ∧
    (iterTrack ⟨2, 1/2, 1/2, 9/10⟩ 46
        ⟨some 1, 7/10, (1/2, 1/2), 31, 45, ⟨none, 7/10, 0⟩⟩).new_target =
      (⟨some 1, 7/10, (1/2, 1/2), 31, 45, ⟨none, 7/10, 0⟩⟩ : TrackerState).new_target ∧
    (iterTrack ⟨2, 1/2, 1/2, 9/10⟩ 46
        ⟨some 1, 7/10, (1/2, 1/2), 31, 45, ⟨none, 7/10, 0⟩⟩).current_id = some 1 :=
  lock_never_decrements ⟨some 1, 7/10, (1/2, 1/2), 31, 45, ⟨none, 7/10, 0⟩⟩
    ⟨2, 1/2, 1/2, 9/10⟩ 1 (by norm_num) rfl (by norm_num [CONFIDENCE_MARGIN])
    (by norm_num) (by norm_num) (by norm_num) (by norm_num) (by norm_num)
    (by norm_num) (by norm_num) (by norm_num) (by norm_num) 46

/-- C2 (code bug): `update` increments `lost_frames` on EVERY non-scene-cut
frame, candidate present or not (line 300), and nothing resets it on a
successful detection; hence after 30 tracked frames the counter already
reads 30 and a single no-detection frame resets the tracker to the default
center, where the claim promises a hold for up to 29 more frames. -/
theorem lost_frames_bug :
    (∀ (s : TrackerState) (c : Cluster),
       (PersonTracker.update s c 0 3000 30).1.lost_frames = s.lost_frames + 1) ∧
    (∀ (c : Cluster) (n : ℕ), (iterTrack c n initTracker).lost_frames = n) ∧
    (∀ s : TrackerState, 29 ≤ s.lost_frames →
       PersonTracker.handle_no_detection s 0 3000 = (resetTracker, TrackMsg.lostReset)) := by
  refine ⟨update_lost, ?_, ?_⟩
  · intro c n
    rw [iterTrack_lost]
    simp [initTracker]
  · intro s hs
    obtain ⟨cid, cc, pos, lf, lc, nt⟩ := s
    simp only at hs
    simp only [PersonTracker.handle_no_detection]
    rw [if_neg (by norm_num : ¬ (0:ℚ) > 3000),
      if_neg (by simp only [wait_frames]; omega)]

/-- Witness for `lost_frames_bug`: a fresh tracker follows candidate 0 for
30 frames, then one frame without detection resets it to center. -/
theorem lost_frames_bug_witness :
    (PersonTracker.update initTracker ⟨0, 1/2, 1/2, 1/2⟩ 0 3000 30).1.lost_frames =
      initTracker.lost_frames + 1 ∧
    (iterTrack ⟨0, 1/2, 1/2, 1/2⟩ 30 initTracker).lost_frames = 30 ∧
    PersonTracker.handle_no_detection (iterTrack ⟨0, 1/2, 1/2, 1/2⟩ 30 initTracker) 0 3000 =
      (resetTracker, TrackMsg.lostReset) :=
  ⟨lost_frames_bug.1 initTracker ⟨0, 1/2, 1/2, 1/2⟩,
   lost_frames_bug.2.1 ⟨0, 1/2, 1/2, 1/2⟩ 30,
   lost_frames_bug.2.2 _ (by rw [lost_frames_bug.2.1 ⟨0, 1/2, 1/2, 1/2⟩ 30]; norm_num)⟩

/-- C6: (a) a rival whose confidence falls short of
`current_confidence + 0.15` never switches the subject and clears any
pending candidate; (b) a genuine rival (margin met, no lock, fresh pending)
sustained frame after frame leaves the subject unchanged through frame 29
and commits the switch exactly on the 30th consecutive rival frame. -/
theorem tracker_hysteresis (s : TrackerState) (c : Cluster) (i : ℕ)
    (hid : s.current_id = some i) (hne : c.id ≠ i)
    (hp1 : 0 ≤ s.position.1) (hp2 : s.position.1 ≤ 1)
    (hp3 : 0 ≤ s.position.2) (hp4 : s.position.2 ≤ 1)
    (hcx1 : 0 ≤ c.x) (hcx2 : c.x ≤ 1) (hcy1 : 0 ≤ c.y) (hcy2 : c.y ≤ 1) :
    (c.conf < s.current_confidence + CONFIDENCE_MARGIN →
       (PersonTracker.update s c 0 3000 30).1.current_id = some i ∧
       (PersonTracker.update s c 0 3000 30).1.new_target.id = none) ∧
    (s.current_confidence + CONFIDENCE_MARGIN ≤ c.conf → 0 ≤ s.current_confidence →
     s.lock_countdown = 0 → s.new_target.id = none →
       (∀ n, n < 30 → (iterTrack c n s).current_id = some i) ∧
       (iterTrack c 30 s).current_id = some c.id) := by
  have hd : distSq s.position.1 s.position.2 c.x c.y ≤ 900 :=
    le_trans (distSq_le_two _ _ _ _ hp1 hp2 hp3 hp4 hcx1 hcx2 hcy1 hcy2)
      (by norm_num : (2:ℚ) ≤ 900)
  constructor
  · intro hweak
    rw [update_notStrong s c i hid hne hweak hd]
    exact ⟨hid, rfl⟩
  · intro hconf hcc hlock hnt
    have hstart : RivalInv i s.current_confidence c 1 (PersonTracker.update s c 0 3000 30).1 :=
      rival_start_inv s c i hid hne hconf hlock hnt hp1 hp2 hp3 hp4 hcx1 hcx2 hcy1 hcy2
    have hinv : ∀ m, 1 + m < 30 →
        RivalInv i s.current_confidence c (1 + m) (iterTrack c (m + 1) s) := by
      intro m hm
      show RivalInv i s.current_confidence c (1 + m)
        (iterTrack c m (PersonTracker.update s c 0 3000 30).1)
      exact rival_iter_inv c i s.current_confidence hne hconf hcc
        hcx1 hcx2 hcy1 hcy2 m 1 _ hstart hm
    constructor
    · intro n hn
      match n with
      | 0 => exact hid
      | m + 1 =>
          have := hinv m (by omega)
          exact this.1
    · rw [iterTrack_succ c 29 s]
      have h29 : RivalInv i s.current_confidence c 29 (iterTrack c 29 s) := by
        have := hinv 28 (by omega)
        simpa using this
      obtain ⟨h1, h2, h3, h4, h5, h6, h7, h8⟩ := h29
      have hd29 : distSq (iterTrack c 29 s).position.1 (iterTrack c 29 s).position.2
          c.x c.y ≤ 900 :=
        le_trans (distSq_le_two _ _ _ _ h5 h6 h7 h8 hcx1 hcx2 hcy1 hcy2)
          (by norm_num : (2:ℚ) ≤ 900)
      exact update_rival_switch_id (iterTrack c 29 s) c i h1 hne
        (by rw [h2]; exact hconf) h3 (by rw [h4]) (by rw [h4]) hd29

/-- Witness for `tracker_hysteresis`: the margin-failing part with a rival of
confidence 0.6 against a current confidence of 0.5, and the commit part with
a rival of confidence 0.7; positions all at the centre of the unit square. -/
theorem tracker_hysteresis_witness :
    ((PersonTracker.update ⟨some 0, 1/2, (1/2, 1/2), 0, 0, ⟨none, 0, 0⟩⟩
        ⟨2, 1/2, 1/2, 3/5⟩ 0 3000 30).1.current_id = some 0 ∧
     (PersonTracker.update ⟨some 0, 1/2, (1/2, 1/2), 0, 0, ⟨none, 0, 0⟩⟩
        ⟨2, 1/2, 1/2, 3/5⟩ 0 3000 30).1.new_target.id = none) ∧
    ((∀ n, n < 30 →
        (iterTrack ⟨2, 1/2, 1/2, 7/10⟩ n
          ⟨some 0, 1/2, (1/2, 1/2), 0, 0, ⟨none, 0, 0⟩⟩).current_id = some 0) ∧
     (iterTrack ⟨2, 1/2, 1/2, 7/10⟩ 30
        ⟨some 0, 1/2, (1/2, 1/2), 0, 0, ⟨none, 0, 0⟩⟩).current_id = some 2) :=
  ⟨(tracker_hysteresis ⟨some 0, 1/2, (1/2, 1/2), 0, 0, ⟨none, 0, 0⟩⟩
      ⟨2, 1/2, 1/2, 3/5⟩ 0 rfl (by norm_num) (by norm_num) (by norm_num) (by norm_num)
      (by norm_num) (by norm_num) (by norm_num) (by norm_num) (by norm_num)).1
      (by norm_num [CONFIDENCE_MARGIN]),
   (tracker_hysteresis ⟨some 0, 1/2, (1/2, 1/2), 0, 0, ⟨none, 0, 0⟩⟩
      ⟨2, 1/2, 1/2, 7/10⟩ 0 rfl (by norm_num) (by norm_num) (by norm_num) (by norm_num)
      (by norm_num) (by norm_num) (by norm_num) (by norm_num) (by norm_num)).2
      (by norm_num [CONFIDENCE_MARGIN]) (by norm_num) rfl rfl⟩

/-- C10: with the tracker position and the candidate cluster both inside the
normalized unit square, the squared displacement is at most 2 (distance at
most √2), so with the movement threshold 30 that `process_frame` passes the
`movedTooFar` branch of `update` is never taken, whatever the frame
difference. -/
theorem movement_branch_unreachable (s : TrackerState) (c : Cluster) (d : ℚ)
    (hp1 : 0 ≤ s.position.1) (hp2 : s.position.1 ≤ 1)
    (hp3 : 0 ≤ s.position.2) (hp4 : s.position.2 ≤ 1)
    (hcx1 : 0 ≤ c.x) (hcx2 : c.x ≤ 1) (hcy1 : 0 ≤ c.y) (hcy2 : c.y ≤ 1) :
    distSq s.position.1 s.position.2 c.x c.y ≤ 2 ∧
    ∀ j, (PersonTracker.update s c d 3000 30).2 ≠ TrackMsg.movedTooFar j := by
  have h2 := distSq_le_two _ _ _ _ hp1 hp2 hp3 hp4 hcx1 hcx2 hcy1 hcy2
  refine ⟨h2, ?_⟩
  intro j
  obtain ⟨cid, cc, pos, lf, lc, nt⟩ := s
  simp only at h2
  cases cid
  · simp only [PersonTracker.update]
    split_ifs <;> simp
  · simp only [PersonTracker.update]
    split_ifs with hsc hmv <;> try simp
    exact absurd hmv (by rw [gt_iff_lt, not_lt]; norm_num; linarith)

/-- Witness for `movement_branch_unreachable`: fresh tracker at the centre,
candidate at the centre with confidence 0.5. -/
theorem movement_branch_unreachable_witness :
    distSq initTracker.position.1 initTracker.position.2 (1/2) (1/2) ≤ 2 ∧
    ∀ j, (PersonTracker.update initTracker ⟨0, 1/2, 1/2, 1/2⟩ 0 3000 30).2 ≠
      TrackMsg.movedTooFar j :=
  movement_branch_unreachable initTracker ⟨0, 1/2, 1/2, 1/2⟩ 0
    (by norm_num [initTracker, DEFAULT_CENTER]) (by norm_num [initTracker, DEFAULT_CENTER])
    (by norm_num [initTracker, DEFAULT_CENTER]) (by norm_num [initTracker, DEFAULT_CENTER])
    (by norm_num) (by norm_num) (by norm_num) (by norm_num)

/-- C7: with a scene cut at frame 10 (frames 8 and 9 quiet before it), no
candidate on frames 11-14 and the first candidate at frame 15 with x = 0.7,
Pass 1 retroactively overwrites the records of frames 11-14 to x = 0.7 while
frame 10 stays the scene-change marker pinned to 0.5.  (Frame 15 itself gets
no record — the backfill branch returns without appending.) -/
theorem delayed_detection_backfill :
    (runPlan 30 [(8, none, 0), (9, none, 0), (10, none, 4000), (11, none, 0),
      (12, none, 0), (13, none, 0), (14, none, 0), (15, some (7/10), 0)]).frame_data =
      [(8, 1/2, false), (9, 1/2, false), (10, 1/2, true), (11, 7/10, false),
       (12, 7/10, false), (13, 7/10, false), (14, 7/10, false)] := by
  norm_num [runPlan, List.foldl, plan_movement, initPlanner, DEFAULT_CENTER,
    max_movement_per_frame, fast_transition_threshold, history_size, centering_weight,
    lastRecord, List.map, abs, min_def, max_def]

/-- C8 counterexample: on the delayed-detection trace of C7 followed by one
more detected frame, nine calls to `plan_movement` leave only eight records
and no record at all for frame 15 — the call for frame 15 (the backfill
frame) appends nothing, so recorded frame numbers are not consecutive. -/
theorem plan_movement_gap_cex :
    ((runPlan 30 [(8, none, 0), (9, none, 0), (10, none, 4000), (11, none, 0),
      (12, none, 0), (13, none, 0), (14, none, 0), (15, some (7/10), 0),
      (16, some (7/10), 0)]).frame_data.map Prod.fst) = [8, 9, 10, 11, 12, 13, 14, 16] ∧
    (runPlan 30 [(8, none, 0), (9, none, 0), (10, none, 4000), (11, none, 0),
      (12, none, 0), (13, none, 0), (14, none, 0), (15, some (7/10), 0),
      (16, some (7/10), 0)]).frame_data.length ≠ 9 ∧
    15 ∉ ((runPlan 30 [(8, none, 0), (9, none, 0), (10, none, 4000), (11, none, 0),
      (12, none, 0), (13, none, 0), (14, none, 0), (15, some (7/10), 0),
      (16, some (7/10), 0)]).frame_data.map Prod.fst) := by
  have h : ((runPlan 30 [(8, none, 0), (9, none, 0), (10, none, 4000), (11, none, 0),
      (12, none, 0), (13, none, 0), (14, none, 0), (15, some (7/10), 0),
      (16, some (7/10), 0)]).frame_data.map Prod.fst) = [8, 9, 10, 11, 12, 13, 14, 16] := by
    norm_num [runPlan, List.foldl, plan_movement, initPlanner, DEFAULT_CENTER,
      max_movement_per_frame, fast_transition_threshold, history_size, centering_weight,
      lastRecord, List.map, abs, min_def, max_def]
  have hl : (runPlan 30 [(8, none, 0), (9, none, 0), (10, none, 4000), (11, none, 0),
      (12, none, 0), (13, none, 0), (14, none, 0), (15, some (7/10), 0),
      (16, some (7/10), 0)]).frame_data.length = 8 := by
    have := congrArg List.length h
    simpa using this
  refine ⟨h, by omega, ?_⟩
  rw [h]
  decide

/-- C4 counterexample: a run with a scene cut at frame 1 and a delayed first
detection at frame 2 gives the segment `(1, 3, [0.5, 0.53])`, whose frame
range (three frames) is longer than its raw-position list (two entries);
frame 3 — beyond the end of the list — is left at the default center 0.5,
NOT at the segment's last smoothed value 0.50009. -/
theorem tail_frames_left_at_default_cex :
    get_scene_segments (runPlan 30 [(0, none, 0), (1, none, 4000), (2, some (7/10), 0),
        (3, some (7/10), 0)]).frame_data = [(0, 0, [1/2]), (1, 3, [1/2, 53/100])] ∧
    interpolate_and_smooth (runPlan 30 [(0, none, 0), (1, none, 4000), (2, some (7/10), 0),
        (3, some (7/10), 0)]).frame_data 4 = [1/2, 1/2, 50009/100000, 1/2] ∧
    ((1:ℚ)/2) ≠ 50009/100000 := by
  refine ⟨?_, ?_, by norm_num⟩
  · norm_num [runPlan, List.foldl, plan_movement, initPlanner, DEFAULT_CENTER,
      max_movement_per_frame, fast_transition_threshold, history_size, centering_weight,
      lastRecord, List.map, get_scene_segments, segGo, abs, min_def, max_def]
    all_goals simp
  · norm_num [runPlan, List.foldl, plan_movement, initPlanner, DEFAULT_CENTER,
      max_movement_per_frame, fast_transition_threshold, history_size, centering_weight,
      lastRecord, List.map, get_scene_segments, segGo, interpolate_and_smooth,
      smoothSegment, smoothVals, smoothStep, base_alpha, delta_threshold, writeAt,
      List.replicate, List.set, List.take, abs, min_def, max_def]

/-- C8 (amended): every call to `plan_movement` with frame number `n` either
appends exactly one record for frame `n` (scene-cut and normal branches), or
— exactly when a delayed first detection arrives, i.e. `waiting_for_detection`
holds, a candidate is present, and there is no scene cut — appends nothing
and only rewrites the stored x values: the record count, every record's frame
number and scene flag are preserved, and a record's x may change only if it
lies in the span from `current_scene_start` onward and is not a scene
marker. -/
theorem plan_movement_append_or_backfill (s : PlannerState) (n : ℕ) (c : Option ℚ)
    (d t : ℚ) :
    (∃ x b, (plan_movement s n c d t).frame_data = s.frame_data ++ [(n, x, b)]) ∨
    (s.waiting_for_detection = true ∧ c.isSome = true ∧ ¬ d > t ∧
     (plan_movement s n c d t).frame_data.length = s.frame_data.length ∧
     (∀ i, ((plan_movement s n c d t).frame_data.get? i).map (fun r => (r.1, r.2.2)) =
           (s.frame_data.get? i).map (fun r => (r.1, r.2.2))) ∧
     (∀ i r r', s.frame_data.get? i = some r →
        (plan_movement s n c d t).frame_data.get? i = some r' →
        r'.2.1 = r.2.1 ∨ (s.current_scene_start ≤ r.1 ∧ r.2.2 = false))) := by
  by_cases hd : d > t
  · left
    exact ⟨DEFAULT_CENTER, true, by simp [plan_movement, hd]⟩
  · by_cases hw : s.waiting_for_detection = true ∧ c.isSome = true
    · right
      refine ⟨hw.1, hw.2, hd, ?_, ?_, ?_⟩
      · simp only [plan_movement, if_neg hd, dif_pos hw]
        exact List.length_map _ _
      · intro i
        simp only [plan_movement, if_neg hd, dif_pos hw, List.get?_map]
        cases hr : s.frame_data.get? i
        · rfl
        · simp only [Option.map_some']
          split_ifs with hc
          · simp [hc.2]
          · rfl
      · intro i r r' hr hr'
        simp only [plan_movement, if_neg hd, dif_pos hw, List.get?_map, hr,
          Option.map_some', Option.some.injEq] at hr'
        by_cases hc : s.current_scene_start ≤ r.1 ∧ r.2.2 = false
        · exact Or.inr hc
        · rw [if_neg hc] at hr'
          rw [← hr']
          exact Or.inl rfl
    · left
      simp only [plan_movement, if_neg hd, dif_neg hw]
      cases hl : lastRecord s.frame_data
      · exact ⟨_, false, rfl⟩
      · dsimp only
        split_ifs <;> exact ⟨_, false, rfl⟩

/-- A list of copies of `p` sums to `length * p`. -/
theorem sum_const_of_mem (p : ℚ) : ∀ l : List ℚ, (∀ x ∈ l, x = p) →
    l.sum = (l.length : ℚ) * p := by
  intro l
  induction l with
  | nil => simp
  | cons a as ih =>
      intro h
      have ha := h a (List.mem_cons_self a as)
      rw [List.sum_cons, ih (fun x hx => h x (List.mem_cons_of_mem a hx)), ha,
        List.length_cons]
      push_cast
      ring

/-- The mean of a nonempty list of copies of `p` is `p`. -/
theorem avg_const (p : ℚ) (l : List ℚ) (h : ∀ x ∈ l, x = p) (hl : 0 < l.length) :
    l.sum / (l.length : ℚ) = p := by
  have hne : (l.length : ℚ) ≠ 0 := by exact_mod_cast hl.ne'
  rw [sum_const_of_mem p l h, mul_comm, mul_div_assoc, div_self hne, mul_one]

/-- `range (n+1)` mapped to constant records, split at the last record. -/
theorem rangeMap_succ (p : ℚ) (n : ℕ) :
    (List.range (n + 1)).map (fun k => ((k : ℕ), p, false)) =
      (List.range n).map (fun k => ((k : ℕ), p, false)) ++ [(n, p, false)] := by
  rw [List.range_succ, List.map_append]
  rfl

/-- The last record of a nonempty append. -/
theorem lastRecord_append (l : List (ℕ × ℚ × Bool)) (a : ℕ × ℚ × Bool) :
    lastRecord (l ++ [a]) = some a := by
  induction l with
  | nil => rfl
  | cons b bs ih =>
      cases bs with
      | nil => rfl
      | cons c cs => exact ih

/-- `writeAt` leaves indices outside the written window untouched. -/
theorem writeAt_get?_untouched : ∀ (vals centers : List ℚ) (i f : ℕ),
    (f < i ∨ i + vals.length ≤ f) → (writeAt centers i vals).get? f = centers.get? f := by
  intro vals
  induction vals with
  | nil => intro c i f _; rfl
  | cons v vs ih =>
      intro c i f h
      show (writeAt (c.set i v) (i + 1) vs).get? f = c.get? f
      rw [ih (c.set i v) (i + 1) f (by simp at h; omega)]
      exact List.get?_set_ne v c (by simp at h; omega)

/-- `writeAt` stores the written values at their window indices. -/
theorem writeAt_get?_in : ∀ (vals centers : List ℚ) (i j : ℕ), j < vals.length →
    i + j < centers.length → (writeAt centers i vals).get? (i + j) = vals.get? j := by
  intro vals
  induction vals with
  | nil => intro c i j hj _; simp at hj
  | cons v vs ih =>
      intro c i j hj hlen
      cases j with
      | zero =>
          show (writeAt (c.set i v) (i + 1) vs).get? (i + 0) = some v
          rw [writeAt_get?_untouched vs (c.set i v) (i + 1) (i + 0) (Or.inl (by omega))]
          have : i + 0 = i := by omega
          rw [this]
          exact List.get?_set_eq_of_lt v (by simpa using hlen)
      | succ k =>
          show (writeAt (c.set i v) (i + 1) vs).get? (i + (k + 1)) = vs.get? k
          have heq : i + (k + 1) = (i + 1) + k := by omega
          rw [heq, ih (c.set i v) (i + 1) k (by simpa using hj)
            (by rw [List.length_set]; omega)]

/-- `smoothVals` produces one smoothed value per raw position. -/
theorem smoothVals_length (x : ℚ) : ∀ l : List ℚ, (smoothVals x l).length = l.length := by
  intro l
  induction l generalizing x with
  | nil => rfl
  | cons t ts ih => simp [smoothVals, ih]

/-- Folding `smoothSegment` over segments leaves every index that no
segment's written window covers untouched. -/
theorem foldl_smooth_untouched : ∀ (segs : List (ℕ × ℕ × List ℚ)) (centers : List ℚ) (f : ℕ),
    (∀ seg ∈ segs, ¬ (seg.1 ≤ f ∧ f < seg.1 + min (seg.2.1 + 1 - seg.1) seg.2.2.length)) →
    (segs.foldl smoothSegment centers).get? f = centers.get? f := by
  intro segs
  induction segs with
  | nil => intro c f _; rfl
  | cons seg rest ih =>
      intro c f h
      show (rest.foldl smoothSegment (smoothSegment c seg)).get? f = c.get? f
      rw [ih _ _ (fun s hs => h s (List.mem_cons_of_mem seg hs))]
      have hseg := h seg (List.mem_cons_self seg rest)
      obtain ⟨a, b, ps⟩ := seg
      cases ps with
      | nil => rfl
      | cons p0 ps' =>
          simp only [smoothSegment]
          apply writeAt_get?_untouched
          have hlen : ((smoothVals p0 (p0 :: ps')).take
              (min (b + 1 - a) (p0 :: ps').length)).length =
              min (b + 1 - a) (p0 :: ps').length := by
            rw [List.length_take, smoothVals_length]
            omega
          rw [hlen]
          simp only [not_and, not_lt] at hseg
          by_cases haf : f < a
          · exact Or.inl haf
          · exact Or.inr (hseg (by omega))

/-- With no scene markers, `segGo` just accumulates all the x values. -/
theorem segGo_no_scene : ∀ (l : List (ℕ × ℚ × Bool)) (i cstart : ℕ) (cpos : List ℚ),
    (∀ r ∈ l, r.2.2 = false) →
    segGo l i cstart cpos = ([], cstart, cpos ++ l.map (fun r => r.2.1)) := by
  intro l
  induction l with
  | nil => intro i cstart cpos _; simp [segGo]
  | cons r rest ih =>
      intro i cstart cpos h
      obtain ⟨fn, x, sc⟩ := r
      have hsc : sc = false := h (fn, x, sc) (List.mem_cons_self _ _)
      subst hsc
      simp only [segGo]
      rw [if_neg (show ¬(false = true ∧ 0 < i) by simp)]
      rw [ih (i + 1) cstart (cpos ++ [x]) (fun r hr => h r (List.mem_cons_of_mem _ hr))]
      simp

/-- The segments of a constant no-scene run: a single segment covering
frames 0 through `n - 1` with `n` copies of `p`. -/
theorem get_scene_segments_range (p : ℚ) (n : ℕ) (hn : 0 < n) :
    get_scene_segments ((List.range n).map (fun k => ((k : ℕ), p, false))) =
      [(0, n - 1, List.replicate n p)] := by
  obtain ⟨m, rfl⟩ : ∃ m, n = m + 1 := ⟨n - 1, by omega⟩
  have hmap : (List.range (m + 1)).map
      (fun k => (fun r => r.2.1) ((fun k => ((k : ℕ), p, false)) k)) =
        List.replicate (m + 1) p := by
    simp [List.map_const']
  unfold get_scene_segments
  rw [segGo_no_scene _ 0 0 [] (by simp)]
  simp only [List.nil_append, List.map_map]
  rw [Function.comp_def, hmap]
  rw [rangeMap_succ, lastRecord_append]
  simp

/-- Smoothing a constant raw-position list is the identity: every delta is
zero and falls inside the deadband. -/
theorem smoothVals_const (p : ℚ) : ∀ m, smoothVals p (List.replicate m p) = List.replicate m p := by
  intro m
  induction m with
  | zero => rfl
  | succ k ih =>
      have hstep : smoothStep p p = p := by
        norm_num [smoothStep, delta_threshold]
      simp only [List.replicate_succ, smoothVals, hstep, ih]

/-- One Pass-1 step on a constant-candidate no-scene-cut run: the new record
is `(n, p, false)` whatever the stability/centering sub-state, because every
value the centering blend can average is `p` itself. -/
theorem plan_const_step (p dk : ℚ) (hdk : dk ≤ 3000) (s : PlannerState) (n : ℕ)
    (hfd : s.frame_data = (List.range n).map (fun k => ((k : ℕ), p, false)))
    (hw : s.waiting_for_detection = false)
    (hh : ∀ x ∈ s.position_history, x = p) :
    (plan_movement s n (some p) dk 3000).frame_data =
      (List.range (n + 1)).map (fun k => ((k : ℕ), p, false)) ∧
    (plan_movement s n (some p) dk 3000).waiting_for_detection = false ∧
    (∀ x ∈ (plan_movement s n (some p) dk 3000).position_history, x = p) := by
  obtain ⟨fd, css, w, hist, st, req, cen, intr⟩ := s
  simp only at hfd hw hh
  subst hfd hw
  have hsc : ¬ dk > 3000 := not_lt.mpr hdk
  have hnw : ¬ ((false : Bool) = true ∧ (some p : Option ℚ).isSome = true) := by simp
  cases n with
  | zero =>
      simp only [List.range_zero, List.map_nil]
      simp only [plan_movement, if_neg hsc, dif_neg hnw, lastRecord]
      refine ⟨by simp [List.range_succ], by trivial, ?_⟩
      simpa using hh
  | succ m =>
      have hlast : lastRecord ((List.range (m + 1)).map (fun k => ((k : ℕ), p, false))) =
          some (m, p, false) := by
        rw [rangeMap_succ]
        exact lastRecord_append _ _
      have hmemA : ∀ x ∈ hist ++ [p], x = p := by
        intro x hx
        rcases List.mem_append.mp hx with h | h
        · exact hh x h
        · simpa using h
      have hmemT : ∀ x ∈ (hist ++ [p]).tail, x = p :=
        fun x hx => hmemA x (List.mem_of_mem_tail hx)
      have havgT : 1 < (hist ++ [p]).tail.length →
          p * (3/5) + (hist ++ [p]).tail.sum /
            (((hist ++ [p]).tail.length : ℕ) : ℚ) * (2/5) = p := by
        intro hlen
        rw [avg_const p _ hmemT (by omega)]
        ring
      have havgA : 1 < (hist ++ [p]).length →
          p * (3/5) + (hist ++ [p]).sum /
            (((hist ++ [p]).length : ℕ) : ℚ) * (2/5) = p := by
        intro hlen
        rw [avg_const p _ hmemA (by omega)]
        ring
      simp only [plan_movement, if_neg hsc, dif_neg hnw, hlast]
      norm_num [max_movement_per_frame, fast_transition_threshold, history_size,
        centering_weight]
      split_ifs with hcen h3 hlen hlen2
      · exact ⟨by rw [havgT hlen, rangeMap_succ p (m + 1)], rfl, hmemT⟩
      · exact ⟨by rw [rangeMap_succ p (m + 1)], rfl, hmemT⟩
      · exact ⟨by rw [havgA hlen2, rangeMap_succ p (m + 1)], rfl, hmemA⟩
      · exact ⟨by rw [rangeMap_succ p (m + 1)], rfl, hmemA⟩
      · exact ⟨by rw [rangeMap_succ p (m + 1)], rfl, hh⟩

/-- `constantRun` peeled at the last frame. -/
theorem constantRun_succ (p fps : ℚ) (d : ℕ → ℚ) (n : ℕ) :
    constantRun p fps d (n + 1) =
      plan_movement (constantRun p fps d n) n (some p) (d n) 3000 := by
  unfold constantRun
  rw [List.range_succ, List.foldl_append]
  rfl

/-- A constant-candidate run below the scene threshold records `(k, p, false)`
for every frame `k`. -/
theorem constantRun_inv (p fps : ℚ) (d : ℕ → ℚ) (hd : ∀ k, d k ≤ 3000) (n : ℕ) :
    (constantRun p fps d n).frame_data =
      (List.range n).map (fun k => ((k : ℕ), p, false)) ∧
    (constantRun p fps d n).waiting_for_detection = false ∧
    (∀ x ∈ (constantRun p fps d n).position_history, x = p) := by
  induction n with
  | zero =>
      refine ⟨by simp [constantRun, initPlanner], rfl, ?_⟩
      intro x hx
      simp [constantRun, initPlanner] at hx
  | succ k ih =>
      rw [constantRun_succ]
      exact plan_const_step p (d k) (hd k) _ k ih.1 ih.2.1 ih.2.2

/-- C5: on any frame sequence whose frame-difference stays below the
scene-change threshold and whose primary candidate sits at the constant
normalized x `p` on every frame, the two-pass planner's smoothed center
equals `p` on every frame — so it has converged by frame 0 (well within any
bound proportional to `1 / base_alpha`) and never overshoots past `p`. -/
theorem constant_input_converges (p fps : ℚ) (d : ℕ → ℚ) (n f : ℕ)
    (hd : ∀ k, d k ≤ 3000) (hf : f < n) :
    (interpolate_and_smooth (constantRun p fps d n).frame_data n).get? f = some p := by
  rw [(constantRun_inv p fps d hd n).1]
  unfold interpolate_and_smooth
  rw [get_scene_segments_range p n (by omega)]
  simp only [List.foldl_cons, List.foldl_nil]
  obtain ⟨m, rfl⟩ : ∃ m, n = m + 1 := ⟨n - 1, by omega⟩
  rw [show List.replicate (m + 1) p = p :: List.replicate m p from List.replicate_succ p m]
  simp only [smoothSegment]
  have h1 : smoothVals p (p :: List.replicate m p) = p :: List.replicate m p := by
    have := smoothVals_const p (m + 1)
    rwa [List.replicate_succ] at this
  have h2 : (m + 1 - 1 + 1 - 0) ⊓ (p :: List.replicate m p).length = m + 1 := by
    simp only [List.length_cons, List.length_replicate]
    omega
  rw [h1, h2]
  have h3 : List.take (m + 1) (p :: List.replicate m p) = p :: List.replicate m p := by
    have hlen : m + 1 = (p :: List.replicate m p).length := by simp
    rw [hlen, List.take_length]
  rw [h3]
  have hw := writeAt_get?_in (p :: List.replicate m p)
    (List.replicate (m + 1) DEFAULT_CENTER) 0 f (by simpa using hf) (by simpa using hf)
  rw [zero_add] at hw
  rw [hw, ← List.replicate_succ]
  simp [List.get?_eq_getElem?, hf]

/-- Witness for `constant_input_converges`: two frames of a candidate pinned
at x = 0.7, frame difference 0 throughout; the smoothed center of frame 1 is
0.7. -/
theorem constant_input_converges_witness :
    (interpolate_and_smooth (constantRun (7/10) 30 (fun _ => 0) 2).frame_data 2).get? 1 =
      some (7/10) :=
  constant_input_converges (7/10) 30 (fun _ => 0) 2 1 (fun _ => by norm_num) (by norm_num)

/-- C4 (amended): in `interpolate_and_smooth`, every frame the per-segment
loops never write — in particular every frame of a segment's range beyond the
end of its raw-position list, and every frame not covered by any segment —
is left at the default center 0.5, the array's initial value (NOT at the
segment's last smoothed value). -/
theorem untouched_frames_default (fd : List (ℕ × ℚ × Bool)) (total f : ℕ)
    (hf : f < total)
    (hnc : ∀ seg ∈ get_scene_segments fd,
      ¬ (seg.1 ≤ f ∧ f < seg.1 + min (seg.2.1 + 1 - seg.1) seg.2.2.length)) :
    (interpolate_and_smooth fd total).get? f = some DEFAULT_CENTER := by
  unfold interpolate_and_smooth
  rw [foldl_smooth_untouched (get_scene_segments fd) _ f hnc]
  simp [List.get?_eq_getElem?, hf]

/-- Witness for `untouched_frames_default`: an empty Pass 1 produces no
segments, and frame 0 of 1 stays at the default center. -/
theorem untouched_frames_default_witness :
    (interpolate_and_smooth [] 1).get? 0 = some DEFAULT_CENTER :=
  untouched_frames_default [] 1 0 (by norm_num)
    (by intro seg hseg; simp [get_scene_segments, segGo] at hseg)

end ToReel
